import Mathlib

/-!
Verification of the NSS dialogue extractor and the VN translator pipeline.

The development shallowly embeds the two source modules:
  nss_file_extractor_git.py  (dialogue-block parser, folder driver)
  vn_translator_git.py       (fenced-payload extraction, repair loop,
                              glossary merge, pipeline driver)
External collaborators (the json parser of the standard library and the
generation service) are passed as function parameters; everything the
repository itself implements is translated definition by definition.
-/

namespace NssExtractor

/- A contiguous-sublist test over character lists. -/
def charsContain (needle : List Char) : List Char → Bool
  | [] => needle.isEmpty
  | c :: rest => needle.isPrefixOf (c :: rest) || charsContain needle rest

/- Python substring containment: needle in hay. -/
def strContains (hay needle : String) : Bool :=
  charsContain needle.data hay.data

/- The full line-terminator set of Python str.splitlines: newline,
carriage return, vertical tab, form feed, the file/group/record
separators, next line, and the line and paragraph separators. -/
def isLineTerm (c : Char) : Bool :=
  c = '\n' || c = '\r' || c = '\u000B' || c = '\u000C' || c = '\u001C' ||
    c = '\u001D' || c = '\u001E' || c = '\u0085' || c = '\u2028' || c = '\u2029'

/- Python str.splitlines: every terminator above ends a line, the CRLF
pair counts as one terminator, a trailing terminator does not produce a
trailing empty line, and the empty string yields no lines. -/
def splitlinesGo : List Char → List Char → List String
  | [], [] => []
  | [], acc => [String.mk acc.reverse]
  | '\r' :: '\n' :: rest, acc => String.mk acc.reverse :: splitlinesGo rest []
  | c :: rest, acc =>
    if isLineTerm c then String.mk acc.reverse :: splitlinesGo rest []
    else splitlinesGo rest (c :: acc)

def splitlines (s : String) : List String :=
  splitlinesGo s.data []

/- One record built by process_content: the Python dict with keys
"text label", "Name", "voice tag" and "text".  The Name and voice tag lists
hold strings or None, the text list holds strings only. -/
structure DialogueEle where
  textLabel : Option String
  name : List (Option String)
  voiceTag : List (Option String)
  text : List String
deriving DecidableEq, Repr

def emptyEle : DialogueEle :=
  { textLabel := none, name := [], voiceTag := [], text := [] }

/- The body of the line loop of process_content (lines 55-81 of the
source), one line at a time.  The source guards the whole body with
line != "", so the empty line is the identity. -/
def processLine (ele : DialogueEle) (line : String) : DialogueEle :=
  if line = "" then ele
  else if strContains line ("[text") then
    { ele with textLabel := some line }
  else if strContains line ("「") then
    let name :=
      if ele.name.length ≠ ele.text.length + 1 then ele.name ++ [none] else ele.name
    let voiceTag :=
      if ele.voiceTag.length ≠ ele.text.length + 1 then ele.voiceTag ++ [none] else ele.voiceTag
    { ele with name := name, voiceTag := voiceTag, text := ele.text ++ [line] }
  else if strContains line ("【") then
    { ele with name := ele.name ++ [some line] }
  else if strContains line ("<voice") then
    let name :=
      if ele.name.length ≠ ele.voiceTag.length + 1 then ele.name ++ [none] else ele.name
    { ele with name := name, voiceTag := ele.voiceTag ++ [some line] }
  else
    match ele.text.getLast? with
    | none => { ele with text := [line] }
    | some last =>
      if strContains last ("」") then
        let name :=
          if ele.name.length ≠ ele.text.length + 1 then ele.name ++ [none] else ele.name
        let voiceTag :=
          if ele.voiceTag.length ≠ ele.text.length + 1 then ele.voiceTag ++ [none] else ele.voiceTag
        { ele with name := name, voiceTag := voiceTag, text := ele.text ++ [line] }
      else
        { ele with text := ele.text.dropLast ++ [last ++ "\n" ++ line] }

/- One entry of the content list: entry.splitlines() folded through the
line loop starting from the fresh record. -/
def processEntry (entry : String) : DialogueEle :=
  (splitlines entry).foldl processLine emptyEle

/- process_content of the source: one record per raw block. -/
def process_content (content : List String) : List DialogueEle :=
  content.map processEntry

/- The result of extract_pre_content as a Python value: either the list
of strings captured from the PRE regions, or — on any exception while
detecting the encoding or reading the file — the marker string
"<Encoding Error>" (line 27 of the source). -/
inductive PreContents where
  | lists : List String → PreContents
  | errStr : String → PreContents
deriving DecidableEq, Repr

/- Python truthiness of that value: a list is truthy when non-empty, a
string is truthy when non-empty. -/
def pyTruthy : PreContents → Bool
  | .lists l => !l.isEmpty
  | .errStr s => !s.data.isEmpty

/- What Python iteration over the value yields: the list elements, or
the characters of the string as one-character strings. -/
def pyIterStrs : PreContents → List String
  | .lists l => l
  | .errStr s => s.data.map fun c => String.mk [c]

/- The value extract_pre_content returns when reading the file raises. -/
def encodingErrorMarker : PreContents :=
  PreContents.errStr ("<Encoding Error>")

/- The per-file logic of process_folder (lines 93-100): the guard
`if pre_contents:` followed by save_content_to_json, whose written payload
is process_content applied to whatever the value iterates as.  `none`
models the branch where no output file is written. -/
def process_file (pre_contents : PreContents) : Option (List DialogueEle) :=
  if pyTruthy pre_contents then some (process_content (pyIterStrs pre_contents))
  else none

/- A line that sets the text label: non-empty and containing the block
label marker. -/
def labelLine (l : String) : Bool :=
  (l != "") && strContains l ("[text")

lemma processLine_textLabel (e : DialogueEle) (l : String) :
    (processLine e l).textLabel = if labelLine l then some l else e.textLabel := by
  unfold processLine labelLine
  by_cases he : l = ""
  · simp [he]
  · cases ht : strContains l ("[text") with
    | true => simp [he, ht]
    | false =>
      simp [he, ht]
      repeat' first | rfl | split

lemma getLast?_cons_eq {α : Type} : ∀ (l : List α) (a : α),
    (a :: l).getLast? = match l.getLast? with
      | some x => some x
      | none => some a := by
  intro l
  induction l with
  | nil => intro a; rfl
  | cons b bs ih =>
    intro a
    rw [List.getLast?_cons_cons, ih b]
    cases h : bs.getLast? <;> rfl

lemma foldl_textLabel : ∀ (lines : List String) (e : DialogueEle),
    (lines.foldl processLine e).textLabel =
      match (lines.filter labelLine).getLast? with
      | some x => some x
      | none => e.textLabel := by
  intro lines
  induction lines with
  | nil => intro e; rfl
  | cons a as ih =>
    intro e
    rw [List.foldl_cons, ih (processLine e a), processLine_textLabel, List.filter_cons]
    cases ha : labelLine a
    · simp [ha]
    · simp only [ha, if_true, ite_true]
      rw [getLast?_cons_eq]
      cases h : (as.filter labelLine).getLast? <;> simp

lemma processEntry_textLabel (b : String) :
    (processEntry b).textLabel = ((splitlines b).filter labelLine).getLast? := by
  unfold processEntry
  rw [foldl_textLabel]
  cases h : ((splitlines b).filter labelLine).getLast? <;> rfl

end NssExtractor

namespace VnTranslator

open NssExtractor (DialogueEle strContains)

/- The JSON value shapes that flow through this pipeline: strings, null,
and arrays of strings or nulls.  The parser of the standard library is an
external collaborator and is passed in as a function parameter, so this
restricted value type loses no generality for the claims below. -/
inductive JVal where
  | str : String → JVal
  | null : JVal
  | strArr : List (Option String) → JVal
deriving DecidableEq, Repr

/- A parsed JSON object: an association list of keys and values, in the
insertion order a Python dict preserves. -/
abbrev JObj := List (String × JVal)

def lookupKey (obj : JObj) (k : String) : Option JVal :=
  match obj with
  | [] => none
  | (k', v) :: rest => if k' = k then some v else lookupKey rest k

/- Python dict assignment obj[k] = v: overwrite in place when the key is
present, append otherwise. -/
def setKey (obj : JObj) (k : String) (v : JVal) : JObj :=
  match obj with
  | [] => [(k, v)]
  | (k', v') :: rest => if k' = k then (k, v) :: rest else (k', v') :: setKey rest k v

/- Splits a character list around the first occurrence of the needle:
some (before, after) with the needle removed, none when absent. -/
def splitFirst (needle : List Char) : List Char → Option (List Char × List Char)
  | [] => none
  | c :: rest =>
    if needle.isPrefixOf (c :: rest) then some ([], (c :: rest).drop needle.length)
    else
      match splitFirst needle rest with
      | some (pre, post) => some (c :: pre, post)
      | none => none

lemma isPrefixOf_length_le : ∀ (l₁ l₂ : List Char), l₁.isPrefixOf l₂ = true →
    l₁.length ≤ l₂.length := by
  intro l₁
  induction l₁ with
  | nil => intro l₂ _; exact Nat.zero_le _
  | cons a as ih =>
    intro l₂ h
    cases l₂ with
    | nil => simp [List.isPrefixOf] at h
    | cons b bs =>
      simp only [List.isPrefixOf, Bool.and_eq_true] at h
      simpa using Nat.succ_le_succ (ih bs h.2)

lemma splitFirst_post_lt (needle : List Char) (hn : needle ≠ []) :
    ∀ (l pre post : List Char), splitFirst needle l = some (pre, post) →
      post.length < l.length := by
  intro l
  induction l with
  | nil => intro pre post h; simp [splitFirst] at h
  | cons c rest ih =>
    intro pre post h
    rw [splitFirst] at h
    by_cases hp : needle.isPrefixOf (c :: rest) = true
    · rw [if_pos hp] at h
      obtain ⟨-, h2⟩ := Prod.mk.injEq .. ▸ Option.some.injEq .. ▸ h
      have hlen : needle.length ≤ (c :: rest).length := isPrefixOf_length_le _ _ hp
      have hpos : 0 < needle.length := List.length_pos.mpr hn
      subst h2
      simp only [List.length_drop]
      omega
    · rw [if_neg hp] at h
      cases hrec : splitFirst needle rest with
      | none => rw [hrec] at h; exact absurd h (by simp)
      | some pr =>
        rw [hrec] at h
        obtain ⟨pre', post'⟩ := pr
        obtain ⟨-, h2⟩ := Prod.mk.injEq .. ▸ Option.some.injEq .. ▸ h
        subst h2
        exact Nat.lt_trans (ih _ _ hrec) (by simp)

def openTagChars : List Char := "```json".data

def closeTagChars : List Char := "```".data

/- re.findall of the pattern from the source (the fenced-region capture
with DOTALL), as a left-to-right scan: find the next opening tag, then the
nearest closing tag after it, capture the body, continue after the close.
The fuel argument only bounds the recursion; every iteration consumes at
least the two tags, so chars.length + 1 is never exhausted. -/
def findFencedGo : Nat → List Char → List String
  | 0, _ => []
  | fuel + 1, s =>
    match splitFirst openTagChars s with
    | none => []
    | some (_, afterOpen) =>
      match splitFirst closeTagChars afterOpen with
      | none => []
      | some (body, afterClose) => String.mk body :: findFencedGo fuel afterClose

def extract_json_blocks (s : String) : List String :=
  findFencedGo (s.data.length + 1) s.data

/- FIX_JSON_PROMPT_TEMPLATE.format(incorrectJson, error). -/
def getFixJsonPrompt (incorrectJson error : String) : String :=
  "\nThe following json string:\n\n\"" ++ incorrectJson ++
    "\"\n\nFailed to load with the following error:\n\n\"" ++ error ++
    "\"\n\nPlease check and fix the json string.\n"

/- The failure message built at lines 368-369 of the source. -/
def mkFailureMsg (json_index : Nat) (file_name json_str err : String) : String :=
  "Unable to load json string at inex: " ++ toString json_index ++
    " from file: " ++ file_name ++ "." ++
    "The json string is \n\n " ++ json_str ++
    " \n\n and error received is \n\n" ++ err ++ "\n\n"

/- The pair loadJsonWithReTry returns, together with how many times the
two external collaborators were invoked on the way: parseAttempts counts
the json.loads call sites reached, llmCalls the do_with_text call sites
reached. -/
structure RetryResult where
  json_data : Option JObj
  failure : Option String
  parseAttempts : Nat
  llmCalls : Nat
deriving DecidableEq, Repr

/- loadJsonWithReTry (lines 343-371).  parse models json.loads (returning
the error text of the raised exception on failure) and llm models
do_with_text.  The branches mirror the source exactly:
  * first json.loads succeeds — done, no repair;
  * otherwise one repair prompt is sent; if the reply holds no fenced
    region, the subscript raises IndexError and the failure message keeps
    the original string and carries the IndexError text;
  * otherwise the first fenced body is parsed once more; on failure the
    message carries that body (json_str was rebound) and the parse error. -/
def loadJsonWithReTry (parse : String → Except String JObj) (llm : String → String)
    (file_name : String) (json_index : Nat) (json_str : String) : RetryResult :=
  match parse json_str.trim with
  | Except.ok d => { json_data := some d, failure := none, parseAttempts := 1, llmCalls := 0 }
  | Except.error e =>
    let prompt := getFixJsonPrompt json_str.trim e
    let response := llm prompt
    match extract_json_blocks response with
    | [] =>
      { json_data := none
        failure := some (mkFailureMsg json_index file_name json_str ("list index out of range"))
        parseAttempts := 1, llmCalls := 1 }
    | b :: _ =>
      match parse b.trim with
      | Except.ok d => { json_data := some d, failure := none, parseAttempts := 2, llmCalls := 1 }
      | Except.error e2 =>
        { json_data := none
          failure := some (mkFailureMsg json_index file_name b e2)
          parseAttempts := 2, llmCalls := 1 }

/- The enumerate loop of extract_json_from_text (lines 319-330): one
loadJsonWithReTry per fenced block, successes accumulated in order into
combined_list, failure messages in order into failure_log. -/
def extractLoop (parse : String → Except String JObj) (llm : String → String)
    (file_name : String) : Nat → List String → List (Option JObj) × List String
  | _, [] => ([], [])
  | index, block :: rest =>
    let r := loadJsonWithReTry parse llm file_name index block
    let res := extractLoop parse llm file_name (index + 1) rest
    match r.failure with
    | some f => (res.1, f :: res.2)
    | none => (r.json_data :: res.1, res.2)

/- extract_json_from_text without its file I/O: read the content, find
the fenced regions, run the loop from index 0. -/
def extract_json_from_text_core (parse : String → Except String JObj)
    (llm : String → String) (file_name : String) (content : String) :
    List (Option JObj) × List String :=
  extractLoop parse llm file_name 0 (extract_json_blocks content)

/- Encoding of the record fields as the JSON values the driver writes. -/
def optStr : Option String → JVal
  | none => JVal.null
  | some s => JVal.str s

def optStrList (l : List (Option String)) : JVal :=
  JVal.strArr l

/- Lines 233-235 of the source: the three dict assignments performed on
the parsed payload before it is collected, in source order. -/
def splice (json_data : JObj) (element : DialogueEle) : JObj :=
  let j1 := setKey json_data ("text label") (optStr element.textLabel)
  let j2 := setKey j1 ("voice tag") (optStrList element.voiceTag)
  setKey j2 ("Name") (optStrList element.name)

/- The per-element body of create_raw_translation_vn_nss_json
(lines 209-236).  mkPrompt models get_translate_with_glossary_prompt with
the VN instruction, dumps models json.dumps, llm models do_with_text,
parse models json.loads; all four are external to the logic under test.
The element is serialized as the single-key object holding its text list,
sent to the service, and the reply is scanned for fenced regions: none
present — nothing happens to either accumulator; otherwise the first
region goes through loadJsonWithReTry, a failure is appended to the log,
and a success is spliced and collected. -/
def process_element (llm : String → String) (mkPrompt : String → String)
    (dumps : JObj → String) (parse : String → Except String JObj)
    (file_name : String) (index : Nat) (element : DialogueEle)
    (collected_json : List (Option JObj)) (failure_log : List String) :
    List (Option JObj) × List String :=
  let translation_json : JObj := [(("text"), JVal.strArr (element.text.map some))]
  let str_json_ele := dumps translation_json
  let response := llm (mkPrompt str_json_ele)
  match extract_json_blocks response with
  | [] => (collected_json, failure_log)
  | b :: _ =>
    let r := loadJsonWithReTry parse llm file_name index b
    match r.failure with
    | some f => (collected_json, failure_log ++ [f])
    | none => (collected_json ++ [r.json_data.map fun jd => splice jd element], failure_log)

/- One glossary entry as create_glossary_json sees it: the mandatory
japanesename key, the gender and ischar keys which may be absent (outer
none) or present with a value, and the remaining keys untouched by the
function.  normalizeEle performs the two defaulting assignments of
lines 171-174. -/
structure GlossaryEle where
  japanesename : String
  gender : Option (Option String)
  ischar : Option Bool
  rest : List (String × JVal)
deriving DecidableEq, Repr

def normalizeEle (e : GlossaryEle) : GlossaryEle :=
  { e with gender := some (e.gender.getD none), ischar := some (e.ischar.getD false) }

/- The inner loop over one chunk list (lines 168-176), threading the
names_read cache. -/
def processEles : List GlossaryEle → List String → List GlossaryEle × List String
  | [], seen => ([], seen)
  | e :: es, seen =>
    if e.japanesename ∈ seen then processEles es seen
    else
      let r := processEles es (e.japanesename :: seen)
      (normalizeEle e :: r.1, r.2)

/- The outer loop over the chunk lists (line 167). -/
def processLists : List (List GlossaryEle) → List String → List GlossaryEle × List String
  | [], seen => ([], seen)
  | l :: ls, seen =>
    let r1 := processEles l seen
    let r2 := processLists ls r1.2
    (r1.1 ++ r2.1, r2.2)

/- create_glossary_json without its file I/O: the deduplicating merge
over the parsed chunk lists, starting from the empty cache. -/
def create_glossary_json (data : List (List GlossaryEle)) : List GlossaryEle :=
  (processLists data []).1

end VnTranslator

namespace NssExtractor

/-- Claim C9: parsing the block made of the three lines 【Name】, 「Hello」
and 「world」 yields one record whose single speaker slot is padded to the
two entries 【Name】 and None, whose texts are the two quoted lines, and
whose voice tags are None, None. -/
theorem c9_scenario_padding :
    process_content ["【Name】\n「Hello」\n「world」"] =
      [{ textLabel := none, name := [some ("【Name】"), none],
         voiceTag := [none, none], text := ["「Hello」", "「world」"] }] := by
  decide

/-- Claim C3 counterexample: parsing the two-line block with lines 「a and
b」 does not produce texts == ["a\nb」"]; the code keeps the opening
marker, so the merged utterance is 「a\nb」. -/
theorem c3_counterexample :
    (process_content ["「a\nb」"]).map DialogueEle.text ≠ [["a\nb」"]] := by
  decide

/-- Claim C3 amended: parsing the two-line block with lines 「a and b」
yields texts == ["「a\nb」"] — the continuation line is appended to the
prior utterance joined by a line break and creates no new slot. -/
theorem c3_continuation_merged :
    (process_content ["「a\nb」"]).map DialogueEle.text = [["「a\nb」"]] := by
  decide

/-- Claim C1 counterexample: the alignment invariant does not hold for
every block after process_content — the single-line block "a" yields
texts of length one with empty speakers and voice tags. -/
theorem c1_counterexample :
    ¬ ∀ content : List String, ∀ e ∈ process_content content,
        e.name.length = e.text.length ∧ e.voiceTag.length = e.text.length := fun h =>
  absurd ((h ["a"] { textLabel := none, name := [], voiceTag := [], text := ["a"] }
    (by decide)).1) (by decide)

lemma processLine_aligned {ele : DialogueEle} {line : String}
    (hl : line = "" ∨ strContains line ("[text") = true ∨ strContains line ("「") = true)
    (h1 : ele.name.length = ele.text.length)
    (h2 : ele.voiceTag.length = ele.text.length) :
    (processLine ele line).name.length = (processLine ele line).text.length ∧
      (processLine ele line).voiceTag.length = (processLine ele line).text.length := by
  by_cases he : line = ""
  · simp [processLine, he, h1, h2]
  · cases ht : strContains line ("[text") with
    | true => simp [processLine, he, ht, h1, h2]
    | false =>
      have hq : strContains line ("「") = true := by
        rcases hl with h | h | h
        · exact absurd h he
        · rw [ht] at h; exact absurd h (by simp)
        · exact h
      have hn : ele.name.length ≠ ele.text.length + 1 := by omega
      have hv : ele.voiceTag.length ≠ ele.text.length + 1 := by omega
      simp [processLine, he, ht, hq, hn, hv, h1, h2]

lemma foldl_aligned : ∀ (lines : List String) (ele : DialogueEle),
    (∀ l ∈ lines, l = "" ∨ strContains l ("[text") = true ∨ strContains l ("「") = true) →
    ele.name.length = ele.text.length → ele.voiceTag.length = ele.text.length →
    (lines.foldl processLine ele).name.length = (lines.foldl processLine ele).text.length ∧
      (lines.foldl processLine ele).voiceTag.length =
        (lines.foldl processLine ele).text.length := by
  intro lines
  induction lines with
  | nil => intro ele _ h1 h2; exact ⟨h1, h2⟩
  | cons a as ih =>
    intro ele hall h1 h2
    have hstep := processLine_aligned (hall a (by simp)) h1 h2
    exact ih (processLine ele a) (fun l hl => hall l (by simp [hl])) hstep.1 hstep.2

/-- Claim C1 amended: the parser pads the speaker and voice-tag lists only
at the moment a new utterance slot is created and never pads trailing
values at the end of a block, so the alignment invariant holds after
processing exactly when the block needs no trailing padding — in
particular for every block each of whose non-empty lines is a label line
or contains the quoted-dialogue open marker 「. -/
theorem c1_alignment_for_dialogue_blocks (content : List String)
    (h : ∀ block ∈ content, ∀ line ∈ splitlines block,
        line = "" ∨ strContains line ("[text") = true ∨ strContains line ("「") = true) :
    ∀ e ∈ process_content content,
      e.name.length = e.text.length ∧ e.voiceTag.length = e.text.length := by
  intro e he
  rw [process_content, List.mem_map] at he
  obtain ⟨block, hb, rfl⟩ := he
  exact foldl_aligned (splitlines block) emptyEle (h block hb) rfl rfl

/-- Claim C1 amended, witness: the single-utterance block 「a」 satisfies
the amended hypothesis and its record is aligned. -/
theorem c1_alignment_witness :
    (DialogueEle.mk none [none] [none] ["「a」"]).name.length =
        (DialogueEle.mk none [none] [none] ["「a」"]).text.length ∧
      (DialogueEle.mk none [none] [none] ["「a」"]).voiceTag.length =
        (DialogueEle.mk none [none] [none] ["「a」"]).text.length :=
  c1_alignment_for_dialogue_blocks ["「a」"] (by decide)
    { textLabel := none, name := [none], voiceTag := [none], text := ["「a」"] } (by decide)

/-- Claim C6 counterexample: in a block holding the two label lines
[textA] and [textB], the record keeps the second one — the first label
line does not win. -/
theorem c6_counterexample :
    (process_content ["[textA]\n[textB]"]).map DialogueEle.textLabel = [some ("[textB]")] ∧
      (process_content ["[textA]\n[textB]"]).map DialogueEle.textLabel ≠
        [some ("[textA]")] := by
  exact ⟨by decide, by decide⟩

/-- Claim C6 amended: every label-marker line overwrites the text label,
so for every block the record's label is the last non-empty line
containing the marker, or absent when there is none. -/
theorem c6_label_last_wins (content : List String) :
    (process_content content).map DialogueEle.textLabel =
      content.map fun block => ((splitlines block).filter labelLine).getLast? := by
  induction content with
  | nil => rfl
  | cons b bs ih =>
    simp only [process_content, List.map_cons] at ih ⊢
    rw [processEntry_textLabel, ih]

end NssExtractor

namespace VnTranslator

open NssExtractor (DialogueEle)

lemma lookupKey_setKey_same : ∀ (obj : JObj) (k : String) (v : JVal),
    lookupKey (setKey obj k v) k = some v := by
  intro obj k v
  induction obj with
  | nil => simp [setKey, lookupKey]
  | cons p rest ih =>
    obtain ⟨k', v'⟩ := p
    by_cases h : k' = k
    · simp [setKey, lookupKey, h]
    · simp [setKey, lookupKey, h, ih]

lemma lookupKey_setKey_ne : ∀ (obj : JObj) (k k2 : String) (v : JVal), k ≠ k2 →
    lookupKey (setKey obj k v) k2 = lookupKey obj k2 := by
  intro obj k k2 v hne
  induction obj with
  | nil => simp [setKey, lookupKey, hne]
  | cons p rest ih =>
    obtain ⟨k', v'⟩ := p
    by_cases h : k' = k
    · simp [setKey, lookupKey, h, hne]
    · simp [setKey, lookupKey, h, ih]

/-- Claim C4: on a payload whose direct parse fails, whose repair reply
holds a fenced region, and whose repaired parse fails again, the recovery
loop stops after exactly two parse attempts and one generation-service
call, emitting the failure record built from the last attempted body and
error. -/
theorem c4_exactly_one_repair (parse : String → Except String JObj)
    (llm : String → String) (file_name : String) (json_index : Nat) (json_str : String)
    (e : String) (h1 : parse json_str.trim = Except.error e)
    (b : String) (rest : List String)
    (h2 : extract_json_blocks (llm (getFixJsonPrompt json_str.trim e)) = b :: rest)
    (e2 : String) (h3 : parse b.trim = Except.error e2) :
    loadJsonWithReTry parse llm file_name json_index json_str =
      { json_data := none, failure := some (mkFailureMsg json_index file_name b e2),
        parseAttempts := 2, llmCalls := 1 } := by
  simp only [loadJsonWithReTry, h1, h2, h3]

/-- Claim C4 witness: a parser that always fails and a service returning
one fenced region produce the failure record after two parse attempts and
one repair call. -/
theorem c4_witness :
    loadJsonWithReTry (fun _ => Except.error ("bad")) (fun _ => "```json oops ```")
        ("f") 0 ("xx") =
      { json_data := none, failure := some (mkFailureMsg 0 ("f") (" oops ") ("bad")),
        parseAttempts := 2, llmCalls := 1 } :=
  c4_exactly_one_repair _ _ _ _ _ ("bad") rfl (" oops ") [] (by decide) ("bad") rfl

/-- Claim C10: when the translation response holds no fenced json region
at all, the driver appends nothing to the collected output and nothing to
the failure log — the record vanishes from both. -/
theorem c10_missing_fence_drops_silently (llm : String → String)
    (mkPrompt : String → String) (dumps : JObj → String)
    (parse : String → Except String JObj) (file_name : String) (index : Nat)
    (element : DialogueEle) (collected_json : List (Option JObj)) (failure_log : List String)
    (h : extract_json_blocks
        (llm (mkPrompt (dumps [(("text"), JVal.strArr (element.text.map some))]))) = []) :
    process_element llm mkPrompt dumps parse file_name index element
        collected_json failure_log = (collected_json, failure_log) := by
  simp only [process_element, h]

/-- Claim C10 witness: a service reply with no fenced region leaves both
accumulators empty. -/
theorem c10_witness :
    process_element (fun _ => ("plain reply")) (fun s => s) (fun _ => (""))
        (fun _ => Except.error ("x")) ("f") 0
        { textLabel := none, name := [], voiceTag := [], text := [] } [] [] = ([], []) :=
  c10_missing_fence_drops_silently _ _ _ _ _ _ _ _ _ (by decide)

/-- Claim C5 counterexample: the driver does not take the name field from
the parsed payload.  With a payload carrying the translated name Alice
and an original record naming 【アリス】, the collected record holds the
original name, not the payload's. -/
theorem c5_counterexample :
    (process_element (fun _ => "```json x ```") (fun p => p) (fun _ => (""))
        (fun _ => Except.ok [(("text"), JVal.strArr [some ("Hello")]),
          (("Name"), JVal.strArr [some ("Alice")])])
        ("file.json") 0
        { textLabel := none, name := [some ("【アリス】")], voiceTag := [none],
          text := ["「こんにちは」"] } [] []).1 =
      [some [(("text"), JVal.strArr [some ("Hello")]),
        (("Name"), JVal.strArr [some ("【アリス】")]),
        (("text label"), JVal.null), (("voice tag"), JVal.strArr [none])]] ∧
    lookupKey [(("text"), JVal.strArr [some ("Hello")]),
        (("Name"), JVal.strArr [some ("Alice")])] ("Name") ≠
      lookupKey [(("text"), JVal.strArr [some ("Hello")]),
        (("Name"), JVal.strArr [some ("【アリス】")]),
        (("text label"), JVal.null), (("voice tag"), JVal.strArr [none])] ("Name") := by
  exact ⟨by decide, by decide⟩

/-- Claim C5 amended: for every parsed payload and source record the
splice writes the record's text label, voice tag and Name onto the
payload — all three copied from the original record, the Name overwriting
whatever the payload carried — while the payload's text key passes
through untouched. -/
theorem c5_splice_fields (jd : JObj) (e : DialogueEle) :
    lookupKey (splice jd e) ("text label") = some (optStr e.textLabel) ∧
      lookupKey (splice jd e) ("voice tag") = some (optStrList e.voiceTag) ∧
      lookupKey (splice jd e) ("Name") = some (optStrList e.name) ∧
      lookupKey (splice jd e) ("text") = lookupKey jd ("text") := by
  unfold splice
  refine ⟨?_, ?_, ?_, ?_⟩
  · rw [lookupKey_setKey_ne _ _ _ _ (by decide), lookupKey_setKey_ne _ _ _ _ (by decide),
      lookupKey_setKey_same]
  · rw [lookupKey_setKey_ne _ _ _ _ (by decide), lookupKey_setKey_same]
  · rw [lookupKey_setKey_same]
  · rw [lookupKey_setKey_ne _ _ _ _ (by decide), lookupKey_setKey_ne _ _ _ _ (by decide),
      lookupKey_setKey_ne _ _ _ _ (by decide)]

lemma extractLoop_eq (parse : String → Except String JObj) (llm : String → String)
    (file_name : String) : ∀ (blocks : List String) (i : Nat),
    extractLoop parse llm file_name i blocks =
      ((List.enumFrom i blocks).filterMap fun p =>
          if (loadJsonWithReTry parse llm file_name p.1 p.2).failure = none
          then some (loadJsonWithReTry parse llm file_name p.1 p.2).json_data else none,
       (List.enumFrom i blocks).filterMap fun p =>
          (loadJsonWithReTry parse llm file_name p.1 p.2).failure) := by
  intro blocks
  induction blocks with
  | nil => intro i; rfl
  | cons b rest ih =>
    intro i
    simp only [extractLoop]
    rw [ih (i + 1)]
    simp only [List.enumFrom_cons, List.filterMap_cons]
    cases hf : (loadJsonWithReTry parse llm file_name i b).failure with
    | none => simp [hf]
    | some f => simp [hf]

lemma extractLoop_lengths (parse : String → Except String JObj) (llm : String → String)
    (file_name : String) : ∀ (blocks : List String) (i : Nat),
    (extractLoop parse llm file_name i blocks).1.length +
      (extractLoop parse llm file_name i blocks).2.length = blocks.length := by
  intro blocks
  induction blocks with
  | nil => intro i; rfl
  | cons b rest ih =>
    intro i
    simp only [extractLoop]
    cases hf : (loadJsonWithReTry parse llm file_name i b).failure with
    | none => have := ih (i + 1); simp only [hf, List.length_cons]; omega
    | some f => have := ih (i + 1); simp only [hf, List.length_cons]; omega

/-- Claim C7: extraction handles the fenced regions independently and in
order — the successes are exactly the in-order regions whose load
produced no failure, the failure log holds exactly the in-order failure
records of the regions whose load failed, and together they account for
every region found in the input text. -/
theorem c7_regions_processed_independently (parse : String → Except String JObj)
    (llm : String → String) (file_name : String) (content : String) :
    extract_json_from_text_core parse llm file_name content =
      ((List.enumFrom 0 (extract_json_blocks content)).filterMap fun p =>
          if (loadJsonWithReTry parse llm file_name p.1 p.2).failure = none
          then some (loadJsonWithReTry parse llm file_name p.1 p.2).json_data else none,
       (List.enumFrom 0 (extract_json_blocks content)).filterMap fun p =>
          (loadJsonWithReTry parse llm file_name p.1 p.2).failure) ∧
    (extract_json_from_text_core parse llm file_name content).1.length +
        (extract_json_from_text_core parse llm file_name content).2.length =
      (extract_json_blocks content).length := by
  exact ⟨extractLoop_eq parse llm file_name (extract_json_blocks content) 0,
    extractLoop_lengths parse llm file_name (extract_json_blocks content) 0⟩

lemma processEles_seen_mono : ∀ (l : List GlossaryEle) (seen : List String) (x : String),
    x ∈ seen → x ∈ (processEles l seen).2 := by
  intro l
  induction l with
  | nil => intro seen x hx; exact hx
  | cons e es ih =>
    intro seen x hx
    by_cases h : e.japanesename ∈ seen
    · simp only [processEles, if_pos h]; exact ih seen x hx
    · simp only [processEles, if_neg h]
      exact ih _ x (List.mem_cons_of_mem _ hx)

lemma processEles_names_seen : ∀ (l : List GlossaryEle) (seen : List String)
    (e : GlossaryEle), e ∈ l → e.japanesename ∈ (processEles l seen).2 := by
  intro l
  induction l with
  | nil => intro seen e he; cases he
  | cons a as ih =>
    intro seen e he
    rcases List.mem_cons.mp he with rfl | he2
    · by_cases h : e.japanesename ∈ seen
      · simp only [processEles, if_pos h]
        exact processEles_seen_mono as seen _ h
      · simp only [processEles, if_neg h]
        exact processEles_seen_mono as _ _ (List.mem_cons_self _ _)
    · by_cases h : a.japanesename ∈ seen
      · simp only [processEles, if_pos h]; exact ih seen e he2
      · simp only [processEles, if_neg h]; exact ih _ e he2

lemma processEles_skip : ∀ (l : List GlossaryEle) (seen : List String),
    (∀ e ∈ l, e.japanesename ∈ seen) → processEles l seen = ([], seen) := by
  intro l
  induction l with
  | nil => intro seen _; rfl
  | cons a as ih =>
    intro seen hall
    have ha : a.japanesename ∈ seen := hall a (List.mem_cons_self _ _)
    simp only [processEles, if_pos ha]
    exact ih seen fun e he => hall e (List.mem_cons_of_mem _ he)

lemma processLists_seen_mono : ∀ (d : List (List GlossaryEle)) (seen : List String)
    (x : String), x ∈ seen → x ∈ (processLists d seen).2 := by
  intro d
  induction d with
  | nil => intro seen x hx; exact hx
  | cons l ls ih =>
    intro seen x hx
    simp only [processLists]
    exact ih _ x (processEles_seen_mono l seen x hx)

lemma processLists_names_seen : ∀ (d : List (List GlossaryEle)) (seen : List String)
    (l : List GlossaryEle) (e : GlossaryEle), l ∈ d → e ∈ l →
    e.japanesename ∈ (processLists d seen).2 := by
  intro d
  induction d with
  | nil => intro seen l e hl; intro _; cases hl
  | cons l0 ls ih =>
    intro seen l e hl he
    rcases List.mem_cons.mp hl with rfl | hl2
    · simp only [processLists]
      exact processLists_seen_mono ls _ _ (processEles_names_seen l seen e he)
    · simp only [processLists]
      exact ih _ l e hl2 he

lemma processLists_skip : ∀ (d : List (List GlossaryEle)) (seen : List String),
    (∀ l ∈ d, ∀ e ∈ l, e.japanesename ∈ seen) → processLists d seen = ([], seen) := by
  intro d
  induction d with
  | nil => intro seen _; rfl
  | cons l ls ih =>
    intro seen hall
    have h1 : processEles l seen = ([], seen) :=
      processEles_skip l seen (hall l (List.mem_cons_self _ _))
    simp only [processLists, h1]
    rw [ih seen fun l2 hl2 e he => hall l2 (List.mem_cons_of_mem _ hl2) e he]
    rfl

lemma processLists_append : ∀ (d1 d2 : List (List GlossaryEle)) (seen : List String),
    processLists (d1 ++ d2) seen =
      ((processLists d1 seen).1 ++ (processLists d2 (processLists d1 seen).2).1,
        (processLists d2 (processLists d1 seen).2).2) := by
  intro d1
  induction d1 with
  | nil => intro d2 seen; simp [processLists]
  | cons l ls ih =>
    intro d2 seen
    simp only [List.cons_append, processLists, List.append_eq]
    rw [ih d2 (processEles l seen).2]
    simp [List.append_assoc, processLists]

/-- Claim C8: the glossary merge deduplicates by the japanesename key —
appending the same batch a second time changes nothing, and of two
entries sharing a key the first occurrence is kept (normalized) while the
later duplicate is dropped silently. -/
theorem c8_glossary_merge_idempotent :
    (∀ data : List (List GlossaryEle),
        create_glossary_json (data ++ data) = create_glossary_json data) ∧
    (∀ (e : GlossaryEle) (g : Option (Option String)) (i : Option Bool)
        (r : List (String × JVal)),
        create_glossary_json [[e, GlossaryEle.mk e.japanesename g i r]] =
          [normalizeEle e]) := by
  constructor
  · intro data
    unfold create_glossary_json
    rw [processLists_append]
    rw [processLists_skip data (processLists data []).2
      fun l hl e he => processLists_names_seen data [] l e hl he]
    simp
  · intro e g i r
    simp [create_glossary_json, processLists, processEles]

end VnTranslator

namespace NssExtractor

/-- Claim C2: on an encoding failure the file is not skipped.  The marker
string "<Encoding Error>" returned by extract_pre_content is truthy, so
process_folder hands it to save_content_to_json, which iterates it
character by character and writes sixteen one-character records instead
of skipping the file. -/
theorem c2_encoding_error_records :
    process_file encodingErrorMarker =
      some ("<Encoding Error>".data.map fun c =>
        { textLabel := none, name := [], voiceTag := [], text := [String.mk [c]] }) ∧
    ((process_file encodingErrorMarker).getD []).length = 16 := by
  exact ⟨by decide, by decide⟩

end NssExtractor

